import Mathlib

set_option linter.unusedVariables false

/-!
Verification development for the retail-demo-store data-synchronization scripts.

Three independent jobs are embedded here, translated from the Python sources:
  - the Incremental Sync Job (src/aws-lambda/dynamodb-neptune-sync/dynamodb-neptune-sync.py),
  - the Bulk Load Job (src/aws-lambda/load-neptune-from-ddb-products/load-neptune-from-ddb-products.py),
  - the Export Job (src/products/sync_ddb_products.py).

Modelling conventions:
  - arbitrary-precision decimals (Python Decimal, DynamoDB numbers) are rationals (Rat);
  - a record (row) is an ordered association list of field name to value;
  - the graph store is a finite association list of vertex id to vertex plus an edge list;
  - a gremlin traversal executed with .next() is a function on the graph state that
    fails (Option.none / Except.error) exactly where the traversal would raise; a
    traversal built without a terminal step (the remove path's drop) is never
    submitted and leaves the state unchanged;
  - uuid4 is a supply of fresh identifiers, modelled by distinct natural numbers.
-/

/-- Entry of a product record's image_labels list: a label name and a confidence
score, accessed in the sources as prop_label of confidence and of name.
Confidence is a decimal score between 0 and 100, modelled as a rational. -/
structure Label where
  name : String
  confidence : Rat
deriving DecidableEq

/-- Field value of a product record as the sync lambdas see it: a string, a
decimal number, or the nested image_labels list. -/
inductive Value where
  | str (s : String)
  | num (d : Rat)
  | labels (ls : List Label)
deriving DecidableEq

/-- A record (row): ordered field-to-value association list. -/
abbrev Row := List (String × Value)

/-- Field access row[f]: the first binding of the field, if any (Python raises
KeyError when the lookup fails, modelled as Option.none at the use sites). -/
def rowGet (r : Row) (f : String) : Option Value :=
  (r.find? (fun p => decide (p.1 = f))).map (fun p => p.2)

/-- A graph vertex: its label, its single-valued properties, and the values of
the multi-valued labels_confidence_gt_75 property (kept separately because the
target store appends to it rather than overwriting). -/
structure Vertex where
  label : String
  props : List (String × Value)
  labelsGt75 : List String
deriving DecidableEq

/-- A directed labelled edge between two vertex identifiers. -/
structure Edge where
  src : String
  lab : String
  dst : String
deriving DecidableEq

/-- The graph store: vertices keyed by identifier, plus edges. -/
structure Graph where
  verts : List (String × Vertex)
  edges : List Edge
deriving DecidableEq

/-- Vertex lookup by identifier: g.V(i). -/
def Graph.findV (g : Graph) (i : String) : Option Vertex :=
  (g.verts.find? (fun p => decide (p.1 = i))).map (fun p => p.2)

/-- Whether a vertex with the given identifier exists. -/
def Graph.hasV (g : Graph) (i : String) : Bool :=
  (g.findV i).isSome

/-- Single-cardinality property write: overwrite the binding of k if present,
else append it. -/
def setProp : List (String × Value) → String → Value → List (String × Value)
  | [], k, v => [(k, v)]
  | p :: rest, k, v => if p.1 = k then (k, v) :: rest else p :: setProp rest k v

/-- Property read on a vertex's single-valued properties. -/
def getProp (ps : List (String × Value)) (k : String) : Option Value :=
  (ps.find? (fun p => decide (p.1 = k))).map (fun p => p.2)

/-- Apply a function to the vertex with the given identifier, leaving every
other vertex untouched. -/
def updateVProps (g : Graph) (i : String) (f : Vertex → Vertex) : Graph :=
  { g with verts := g.verts.map (fun p => if p.1 = i then (p.1, f p.2) else p) }

/-- drop_vertex(g, vertex_id): g.V(vertex_id).drop(). Unlike every other
traversal in the two lambdas, this one carries no terminal step (.next() or
.iterate()), so in gremlin-python the drop traversal is only built, never
submitted to the server: the graph is left unchanged. -/
def drop_vertex (g : Graph) (vid : String) : Graph := g

/-- g.V(vid).property(labels_confidence_gt_75, x).next(): appends one value to
the multi-valued property of the vertex vid; .next() on an empty traversal
raises, so the call fails when no such vertex exists. -/
def addLabelValue (g : Graph) (vid : String) (x : String) : Option Graph :=
  if g.hasV vid then
    some (updateVProps g vid (fun v => { v with labelsGt75 := v.labelsGt75 ++ [x] }))
  else none

/-- Python str.lower() on a label name, modelled character-wise (the label
names in the catalog data are ASCII). -/
def strLower (s : String) : String := ⟨s.data.map Char.toLower⟩

/-- update_image_labels(g, vertex_id, image_labels): for every label entry with
confidence strictly over 75, add its lower-cased name as a value of the
vertex's labels_confidence_gt_75 property; other entries are skipped. -/
def update_image_labels (g : Graph) (vid : String) : List Label → Option Graph
  | [] => some g
  | l :: ls =>
    if 75 < l.confidence then
      match addLabelValue g vid (strLower l.name) with
      | none => none
      | some g1 => update_image_labels g1 vid ls
    else
      update_image_labels g vid ls

/-- The scalar properties written by add_vertex and update_vertex, read from the
row in source order; fails if any field is absent (Python KeyError while the
traversal is being built, before anything executes). -/
def readScalars (row : Row) : Option (List (String × Value)) :=
  match rowGet row "name", rowGet row "current_stock", rowGet row "style",
        rowGet row "gender_affinity", rowGet row "image", rowGet row "category",
        rowGet row "description", rowGet row "price", rowGet row "featured" with
  | some nm, some cs, some st, some ga, some im, some ca, some de, some pr, some fe =>
    some [("product_name", nm), ("current_stock", cs), ("style", st),
          ("gender_affinity", ga), ("image", im), ("category", ca),
          ("description", de), ("price", pr), ("featured", fe)]
  | _, _, _, _, _, _, _, _, _ => none

/-- add_vertex(g, row): g.addV(product).property(T.id, row[id]) followed by the
nine scalar property writes and one .next(), then update_image_labels. The
identifier must be fresh (the target store rejects a duplicate explicit id),
and row[image_labels] must be the nested label list (the loop iterates it). -/
def add_vertex (g : Graph) (row : Row) : Option Graph :=
  match rowGet row "id", readScalars row, rowGet row "image_labels" with
  | some (Value.str vid), some ps, some (Value.labels ls) =>
    if g.hasV vid then none
    else update_image_labels { g with verts := g.verts ++ [(vid, ⟨"product", ps, []⟩)] } vid ls
  | _, _, _ => none

/-- update_vertex(g, row): g.V(row[id]) followed by the nine scalar property
overwrites and one .next() (which raises when the vertex does not exist), then
update_image_labels. -/
def update_vertex (g : Graph) (row : Row) : Option Graph :=
  match rowGet row "id", readScalars row, rowGet row "image_labels" with
  | some (Value.str vid), some ps, some (Value.labels ls) =>
    match g.findV vid with
    | none => none
    | some _ =>
      update_image_labels
        (updateVProps g vid
          (fun v => { v with props := ps.foldl (fun a q => setProp a q.1 q.2) v.props }))
        vid ls
  | _, _, _ => none

/-- The three columns removed by format_row. -/
def droppedCols : List String := ["sk", "url", "aliases"]

/-- format_row(row): pandas res.drop of columns sk, url and aliases; pandas
raises KeyError when any of the listed columns is absent (errors defaults to
raise), so the whole call fails in that case. -/
def format_row (row : Row) : Option Row :=
  if droppedCols.all (fun c => (rowGet row c).isSome) then
    some (row.filter (fun p => decide (¬ p.1 ∈ droppedCols)))
  else none

/-- One change-event record of the batch: an event kind and the record payload. -/
structure Record where
  eventName : String
  dynamodb : Row
deriving DecidableEq

/-- A graph mutation submitted by the Incremental Sync Job for one change
event. Only insert and modify mutations exist: the remove path builds its
drop traversal without a terminal step and submits nothing. -/
inductive Mutation where
  | ins (row : Row)
  | mod (row : Row)
deriving DecidableEq

/-- record.dynamodb.id, as the vertex identifier handed to drop_vertex. -/
def recordId (row : Row) : Option String :=
  match rowGet row "id" with
  | some (Value.str s) => some s
  | _ => none

/-- One iteration of the lambda_handler loop of the Incremental Sync Job: the
INSERT / MODIFY / REMOVE dispatch; any exception aborts the batch, carrying the
graph state at the abort (format_row and the row reads fail before any
traversal executes). An unrecognized event kind matches no branch. -/
def processRecord (g : Graph) (r : Record) : Except Graph (Graph × List Mutation) :=
  if r.eventName = "INSERT" then
    match format_row r.dynamodb with
    | none => Except.error g
    | some row =>
      match add_vertex g row with
      | none => Except.error g
      | some g1 => Except.ok (g1, [Mutation.ins row])
  else if r.eventName = "MODIFY" then
    match format_row r.dynamodb with
    | none => Except.error g
    | some row =>
      match update_vertex g row with
      | none => Except.error g
      | some g1 => Except.ok (g1, [Mutation.mod row])
  else if r.eventName = "REMOVE" then
    match recordId r.dynamodb with
    | none => Except.error g
    | some vid => Except.ok (drop_vertex g vid, [])
  else Except.ok (g, [])

/-- The lambda_handler loop of the Incremental Sync Job over event.Records,
collecting the trace of mutations applied, in order; the first failure aborts
the rest of the batch. -/
def processRecords (g : Graph) : List Record → Except Graph (Graph × List Mutation)
  | [] => Except.ok (g, [])
  | r :: rs =>
    match processRecord g r with
    | Except.error g1 => Except.error g1
    | Except.ok (g1, ms) =>
      match processRecords g1 rs with
      | Except.error g2 => Except.error g2
      | Except.ok (g2, ms2) => Except.ok (g2, ms ++ ms2)

/-!
Bulk Load Job (load-neptune-from-ddb-products.py).
-/

/-- Document-store scan interface: a table's contents as delivered by the scan
API, split into pages (each scan call returns one page of items). -/
def tableContents (pages : List (List Row)) : List Row := pages.flatten

/-- Extract phase of the Bulk Load Job: ddb_response = ddb_table.scan() is
called once and only ddb_response of Items is consumed, so exactly the first
page of the paginated scan is read. -/
def bulkExtract (pages : List (List Row)) : List Row :=
  match pages with
  | [] => []
  | first :: _ => first

/-- Scan performed by the Export Job (sync_ddb_products.py main block):
products = ddb_table.scan(), then only products of Items is iterated —
likewise a single un-paginated call. -/
def exportScanItems (pages : List (List Row)) : List Row :=
  match pages with
  | [] => []
  | first :: _ => first

/-- Product-vertex phase of the Bulk Load Job: the per-row loop performs the
same addV, the same nine scalar property writes and the same confidence
filter as the Incremental Sync Job's add_vertex, so it is embedded by folding
add_vertex over the (column-dropped) rows. -/
def bulkLoadProducts (g : Graph) : List Row → Option Graph
  | [] => some g
  | r :: rs =>
    match add_vertex g r with
    | none => none
    | some g1 => bulkLoadProducts g1 rs

/-- pandas drop_duplicates: keep the first occurrence of every value, in order. -/
def dropDuplicates {α : Type} [DecidableEq α] : List α → List α
  | [] => []
  | x :: xs => x :: dropDuplicates (xs.filter (fun b => decide (b ≠ x)))
termination_by l => l.length
decreasing_by
  simp only [List.length_cons]
  exact Nat.lt_succ_of_le (List.length_filter_le _ _)

/-- The category column of df_products (a cell is the row's category field;
pandas holds a missing cell as NaN, modelled as Option.none). -/
def catColumn (rows : List Row) : List (Option Value) :=
  rows.map (fun r => rowGet r "category")

/-- The style column of df_products. -/
def styleColumn (rows : List Row) : List (Option Value) :=
  rows.map (fun r => rowGet r "style")

/-- df_categories: the deduplicated category column, each value paired with a
freshly generated uuid4 — modelled as distinct naturals 0, 1, ... in
generation order. -/
def df_categories (rows : List Row) : List (Option Value × Nat) :=
  (dropDuplicates (catColumn rows)).enum.map (fun p => (p.2, p.1))

/-- df_styles: the deduplicated style column with fresh uuids; the uuids are
drawn from the same supply after the category uuids, hence the offset. -/
def df_styles (rows : List Row) : List (Option Value × Nat) :=
  (dropDuplicates (styleColumn rows)).enum.map
    (fun p => (p.2, (dropDuplicates (catColumn rows)).length + p.1))

/-- String form str(uuid) of a modelled uuid. -/
def uuidStr (n : Nat) : String := "uuid-" ++ toString n

/-- Python str() of a category/style cell, used only inside the dynamic vertex
label; the claims depend on vertex counts, never on this text. -/
def cellText : Option Value → String
  | some (Value.str s) => s
  | _ => ""

/-- Category-vertex phase: one g.addV(category::<value>) per df_categories row,
with T.id the stringified uuid and a name property holding the cell value. -/
def bulkCategoryVerts (rows : List Row) : List (String × Vertex) :=
  (df_categories rows).map
    (fun p => (uuidStr p.2,
      ⟨"category::" ++ cellText p.1,
       (match p.1 with | some v => [("name", v)] | none => []), []⟩))

/-- Style-vertex phase: one g.addV(style::<value>) per df_styles row. -/
def bulkStyleVerts (rows : List Row) : List (String × Vertex) :=
  (df_styles rows).map
    (fun p => (uuidStr p.2,
      ⟨"style::" ++ cellText p.1,
       (match p.1 with | some v => [("name", v)] | none => []), []⟩))

/-- Position of a value in a list (the uuid assigned when the deduplicated
frame was built in order). -/
def idxOf {α : Type} [DecidableEq α] (a : α) : List α → Nat
  | [] => 0
  | b :: l => if b = a then 0 else idxOf a l + 1

/-- The category_id attached to a row by the inner merge of df_products with
df_categories on category: the uuid of its (unique) category value. -/
def catIdOf (rows : List Row) (c : Option Value) : Nat :=
  idxOf c (dropDuplicates (catColumn rows))

/-- The style_id attached by the second inner merge, on style. -/
def styleIdOf (rows : List Row) (s : Option Value) : Nat :=
  (dropDuplicates (catColumn rows)).length + idxOf s (dropDuplicates (styleColumn rows))

/-- df_edges_category_style: the (category_id, style_id) pairs of the merged
frame, deduplicated — one prospective edge per surviving pair. -/
def edgesCatStyle (rows : List Row) : List (Nat × Nat) :=
  dropDuplicates
    (rows.map (fun r => (catIdOf rows (rowGet r "category"), styleIdOf rows (rowGet r "style"))))

/-- df_edges_styles_products: the (style_id, id) pairs, deduplicated. -/
def edgesStyleProduct (rows : List Row) : List (Nat × Option Value) :=
  dropDuplicates
    (rows.map (fun r => (styleIdOf rows (rowGet r "style"), rowGet r "id")))

/-- The has edges added for categories to styles. -/
def bulkCatStyleEdges (rows : List Row) : List Edge :=
  (edgesCatStyle rows).map (fun p => ⟨uuidStr p.1, "has", uuidStr p.2⟩)

/-- The has edges added for styles to products (dst is str of the product id). -/
def bulkStyleProductEdges (rows : List Row) : List Edge :=
  (edgesStyleProduct rows).map (fun p => ⟨uuidStr p.1, "has", cellText p.2⟩)

/-!
Export Job (sync_ddb_products.py).
-/

/-- One entry of a raw image_labels list in a DynamoDB item: a name string and
a Decimal confidence. -/
structure AttrLabel where
  name : String
  confidence : Rat
deriving DecidableEq

/-- An attribute value of a DynamoDB item as deserialized by the resource API:
a string, a Decimal, a list of label maps, or any other type (bool, map, set,
binary, null, ... — none of which product_dict converts). -/
inductive AttrValue where
  | str (s : String)
  | dec (d : Rat)
  | labelList (ls : List AttrLabel)
  | other
deriving DecidableEq

/-- A normalized label entry of the export output: confidence coerced with
float() (modelled as the same rational, now tagged floating-point) and the
name passed through. -/
structure OutLabel where
  confidence : Rat
  name : String
deriving DecidableEq

/-- A normalized output value of the export: int(value) for a whole Decimal,
float(value) otherwise, strings unchanged, and the converted label list. -/
inductive OutValue where
  | int (n : Int)
  | float (q : Rat)
  | str (s : String)
  | labelList (ls : List OutLabel)
deriving DecidableEq

/-- product_dict(ddb_item): builds the normalized dictionary. A list value is
converted only under the image_labels field; a string passes through; a
Decimal becomes an int when value == int(value) (no fractional part, i.e. the
rational has denominator 1) and a float otherwise; every other field is
skipped, so it is omitted from the output. -/
def product_dict (ddb_item : List (String × AttrValue)) : List (String × OutValue) :=
  ddb_item.filterMap (fun p =>
    match p.2 with
    | AttrValue.labelList ls =>
      if p.1 = "image_labels" then
        some (p.1, OutValue.labelList (ls.map (fun l => ⟨l.confidence, l.name⟩)))
      else none
    | AttrValue.str s => some (p.1, OutValue.str s)
    | AttrValue.dec d =>
      if d.den = 1 then some (p.1, OutValue.int d.num) else some (p.1, OutValue.float d)
    | AttrValue.other => none)

/-- The records written to the yaml output: product_dict of every scanned item. -/
def exportRecords (pages : List (List (List (String × AttrValue)))) :
    List (List (String × OutValue)) :=
  (match pages with
   | [] => []
   | first :: _ => first).map product_dict

/-!
Helper lemmas: association lists, the graph primitives, and the deduplication
function.
-/

theorem find?_filter_keys {α : Type} (l : List (String × α)) (q : String → Bool)
    (f : String) (hq : q f = true) :
    (l.filter (fun p => q p.1)).find? (fun p => decide (p.1 = f))
      = l.find? (fun p => decide (p.1 = f)) := by
  induction l with
  | nil => rfl
  | cons p rest ih =>
    by_cases hpf : p.1 = f
    · simp [List.filter_cons, hpf, hq, List.find?_cons]
    · by_cases hqp : q p.1 = true
      · simp [List.filter_cons, hqp, List.find?_cons, hpf, ih]
      · simp only [Bool.not_eq_true] at hqp
        simp [List.filter_cons, hqp, List.find?_cons, hpf, ih]

theorem find?_filter_keys_none {α : Type} (l : List (String × α)) (q : String → Bool)
    (f : String) (hq : q f = false) :
    (l.filter (fun p => q p.1)).find? (fun p => decide (p.1 = f)) = none := by
  induction l with
  | nil => rfl
  | cons p rest ih =>
    by_cases hqp : q p.1 = true
    · have hpf : p.1 ≠ f := by intro h; rw [h, hq] at hqp; exact Bool.noConfusion hqp
      simp [List.filter_cons, hqp, List.find?_cons, hpf, ih]
    · simp only [Bool.not_eq_true] at hqp
      simp [List.filter_cons, hqp, ih]

theorem find?_map_keyfun {α : Type} (l : List (String × α)) (i : String) (f : α → α)
    (j : String) :
    (l.map (fun p => if p.1 = i then (p.1, f p.2) else p)).find?
        (fun p => decide (p.1 = j))
      = if j = i then (l.find? (fun p => decide (p.1 = j))).map (fun p => (p.1, f p.2))
        else l.find? (fun p => decide (p.1 = j)) := by
  induction l with
  | nil => by_cases h : j = i <;> simp [h]
  | cons p rest ih =>
    obtain ⟨k, a⟩ := p
    by_cases hki : k = i
    · by_cases hkj : k = j
      · have hji : j = i := by rw [← hkj, hki]
        simp [List.find?_cons, hki, hkj, hji]
      · have hji : ¬ j = i := fun h => hkj (by rw [hki, ← h])
        have hij : ¬ i = j := fun h => hji h.symm
        simp [List.find?_cons, hki, hkj, hij, hji, ih]
    · by_cases hkj : k = j
      · by_cases hji : j = i
        · exact absurd (hkj.trans hji) hki
        · simp [List.find?_cons, hki, hkj, hji]
      · simp [List.find?_cons, hki, hkj, ih]

theorem findV_updateVProps (g : Graph) (i : String) (f : Vertex → Vertex) (j : String) :
    (updateVProps g i f).findV j
      = if j = i then (g.findV i).map f else g.findV j := by
  unfold updateVProps Graph.findV
  simp only
  rw [find?_map_keyfun]
  by_cases hji : j = i
  · subst hji
    rw [if_pos rfl, if_pos rfl]
    cases List.find? (fun p => decide (p.1 = j)) g.verts <;> simp
  · simp [hji]

theorem findV_updateVProps_self (g : Graph) (i : String) (f : Vertex → Vertex) :
    (updateVProps g i f).findV i = (g.findV i).map f := by
  rw [findV_updateVProps]; simp

theorem findV_updateVProps_ne (g : Graph) (i : String) (f : Vertex → Vertex) (j : String)
    (h : j ≠ i) : (updateVProps g i f).findV j = g.findV j := by
  rw [findV_updateVProps]; simp [h]

theorem edges_updateVProps (g : Graph) (i : String) (f : Vertex → Vertex) :
    (updateVProps g i f).edges = g.edges := rfl

theorem findV_append_self (g : Graph) (vid : String) (v : Vertex)
    (h : g.hasV vid = false) :
    Graph.findV ⟨g.verts ++ [(vid, v)], g.edges⟩ vid = some v := by
  unfold Graph.findV
  simp only
  have hnone : g.verts.find? (fun p => decide (p.1 = vid)) = none := by
    unfold Graph.hasV Graph.findV at h
    cases hf : g.verts.find? (fun p => decide (p.1 = vid)) with
    | none => rfl
    | some p => rw [hf] at h; simp at h
  rw [List.find?_append, hnone]
  simp

theorem findV_append_ne (g : Graph) (vid : String) (v : Vertex) (j : String)
    (h : j ≠ vid) :
    Graph.findV ⟨g.verts ++ [(vid, v)], g.edges⟩ j = g.findV j := by
  unfold Graph.findV
  simp only
  rw [List.find?_append]
  cases hf : g.verts.find? (fun p => decide (p.1 = j)) with
  | none => simp [Ne.symm h, fun hh => h hh]
  | some p => simp

theorem hasV_iff (g : Graph) (i : String) :
    g.hasV i = true ↔ ∃ v, g.findV i = some v := by
  unfold Graph.hasV
  cases h : g.findV i <;> simp

/-- The lower-cased names of the labels that pass the confidence filter. -/
def passingLabels (ls : List Label) : List String :=
  (ls.filter (fun l => decide (75 < l.confidence))).map (fun l => strLower l.name)

theorem uil_ok (ls : List Label) : ∀ (g : Graph) (vid : String) (v : Vertex),
    g.findV vid = some v →
    ∃ g2, update_image_labels g vid ls = some g2 ∧
      g2.findV vid = some ⟨v.label, v.props, v.labelsGt75 ++ passingLabels ls⟩ ∧
      (∀ j, j ≠ vid → g2.findV j = g.findV j) ∧
      g2.edges = g.edges := by
  induction ls with
  | nil =>
    intro g vid v hv
    refine ⟨g, rfl, ?_, fun j _ => rfl, rfl⟩
    simpa [passingLabels] using hv
  | cons l ls ih =>
    intro g vid v hv
    by_cases hc : 75 < l.confidence
    · have hhas : g.hasV vid = true := (hasV_iff g vid).mpr ⟨v, hv⟩
      set g1 := updateVProps g vid
        (fun w => { w with labelsGt75 := w.labelsGt75 ++ [strLower l.name] }) with hg1
      have hstep : addLabelValue g vid (strLower l.name) = some g1 := by
        unfold addLabelValue; rw [hhas]; simp [hg1]
      have hv1 : g1.findV vid
          = some ⟨v.label, v.props, v.labelsGt75 ++ [strLower l.name]⟩ := by
        rw [hg1, findV_updateVProps_self, hv]
        rfl
      obtain ⟨g2, hrun, hfind, hframe, hedges⟩ :=
        ih g1 vid ⟨v.label, v.props, v.labelsGt75 ++ [strLower l.name]⟩ hv1
      refine ⟨g2, ?_, ?_, ?_, ?_⟩
      · unfold update_image_labels
        rw [if_pos hc, hstep]
        exact hrun
      · rw [hfind]
        simp [passingLabels, hc]
      · intro j hj
        rw [hframe j hj, hg1, findV_updateVProps_ne _ _ _ _ hj]
      · rw [hedges, hg1, edges_updateVProps]
    · obtain ⟨g2, hrun, hfind, hframe, hedges⟩ := ih g vid v hv
      refine ⟨g2, ?_, ?_, hframe, hedges⟩
      · unfold update_image_labels
        rw [if_neg hc]
        exact hrun
      · rw [hfind]
        simp [passingLabels, hc]

theorem uil_frame (ls : List Label) : ∀ (g : Graph) (vid : String) (g2 : Graph),
    update_image_labels g vid ls = some g2 →
    (∀ j, j ≠ vid → g2.findV j = g.findV j) ∧ g2.edges = g.edges := by
  induction ls with
  | nil =>
    intro g vid g2 h
    cases h
    exact ⟨fun j _ => rfl, rfl⟩
  | cons l ls ih =>
    intro g vid g2 h
    unfold update_image_labels at h
    by_cases hc : 75 < l.confidence
    · rw [if_pos hc] at h
      cases hstep : addLabelValue g vid (strLower l.name) with
      | none => rw [hstep] at h; exact absurd h (by simp)
      | some g1 =>
        rw [hstep] at h
        obtain ⟨hframe, hedges⟩ := ih g1 vid g2 h
        have hg1 : g1 = updateVProps g vid
            (fun w => { w with labelsGt75 := w.labelsGt75 ++ [strLower l.name] }) := by
          unfold addLabelValue at hstep
          by_cases hh : g.hasV vid = true
          · rw [if_pos hh] at hstep; injection hstep with hs; exact hs.symm
          · rw [if_neg hh] at hstep; exact absurd hstep (by simp)
        constructor
        · intro j hj
          rw [hframe j hj, hg1, findV_updateVProps_ne _ _ _ _ hj]
        · rw [hedges, hg1, edges_updateVProps]
    · rw [if_neg hc] at h
      exact ih g vid g2 h

theorem add_vertex_spec (g : Graph) (row : Row) (vid : String)
    (ps : List (String × Value)) (ls : List Label)
    (hid : rowGet row "id" = some (Value.str vid))
    (hsc : readScalars row = some ps)
    (hil : rowGet row "image_labels" = some (Value.labels ls))
    (hfresh : g.hasV vid = false) :
    ∃ g2, add_vertex g row = some g2 ∧
      g2.findV vid = some ⟨"product", ps, passingLabels ls⟩ ∧
      (∀ j, j ≠ vid → g2.findV j = g.findV j) ∧
      g2.edges = g.edges := by
  have hmid : Graph.findV ⟨g.verts ++ [(vid, ⟨"product", ps, []⟩)], g.edges⟩ vid
      = some ⟨"product", ps, []⟩ := findV_append_self g vid _ hfresh
  obtain ⟨g2, hrun, hfind, hframe, hedges⟩ :=
    uil_ok ls ⟨g.verts ++ [(vid, ⟨"product", ps, []⟩)], g.edges⟩ vid _ hmid
  refine ⟨g2, ?_, ?_, ?_, hedges⟩
  · unfold add_vertex
    rw [hid, hsc, hil]
    simp only [hfresh, Bool.false_eq_true, if_false]
    exact hrun
  · simpa using hfind
  · intro j hj
    rw [hframe j hj, findV_append_ne g vid _ j hj]

theorem update_vertex_spec (g : Graph) (row : Row) (vid : String)
    (ps : List (String × Value)) (ls : List Label) (v : Vertex)
    (hid : rowGet row "id" = some (Value.str vid))
    (hsc : readScalars row = some ps)
    (hil : rowGet row "image_labels" = some (Value.labels ls))
    (hv : g.findV vid = some v) :
    ∃ g2, update_vertex g row = some g2 ∧
      g2.findV vid = some ⟨v.label, ps.foldl (fun a q => setProp a q.1 q.2) v.props,
                           v.labelsGt75 ++ passingLabels ls⟩ ∧
      (∀ j, j ≠ vid → g2.findV j = g.findV j) ∧
      g2.edges = g.edges := by
  set g1 := updateVProps g vid
    (fun w => { w with props := ps.foldl (fun a q => setProp a q.1 q.2) w.props }) with hg1
  have hv1 : g1.findV vid
      = some ⟨v.label, ps.foldl (fun a q => setProp a q.1 q.2) v.props, v.labelsGt75⟩ := by
    rw [hg1, findV_updateVProps_self, hv]
    rfl
  obtain ⟨g2, hrun, hfind, hframe, hedges⟩ := uil_ok ls g1 vid _ hv1
  refine ⟨g2, ?_, ?_, ?_, ?_⟩
  · unfold update_vertex
    rw [hid, hsc, hil]
    simp only [hv]
    exact hrun
  · exact hfind
  · intro j hj
    rw [hframe j hj, hg1, findV_updateVProps_ne _ _ _ _ hj]
  · rw [hedges, hg1, edges_updateVProps]

theorem getProp_setProp_self (ps : List (String × Value)) (k : String) (v : Value) :
    getProp (setProp ps k v) k = some v := by
  induction ps with
  | nil => simp [setProp, getProp]
  | cons p rest ih =>
    by_cases h : p.1 = k
    · simp [setProp, h, getProp]
    · simp [setProp, h, getProp, List.find?_cons]
      simpa [getProp] using ih

theorem getProp_setProp_ne (ps : List (String × Value)) (k : String) (v : Value)
    (k2 : String) (h : k2 ≠ k) :
    getProp (setProp ps k v) k2 = getProp ps k2 := by
  induction ps with
  | nil =>
    have h2 : ¬ k = k2 := fun hh => h hh.symm
    simp [setProp, getProp, List.find?_cons, h2]
  | cons p rest ih =>
    by_cases hp : p.1 = k
    · subst hp
      simp only [setProp, if_pos rfl]
      unfold getProp
      simp [List.find?_cons, fun hh => h hh, Ne.symm h]
    · simp only [setProp, if_neg hp]
      unfold getProp at ih ⊢
      by_cases hp2 : p.1 = k2
      · simp [List.find?_cons, hp2]
      · simp [List.find?_cons, hp2, ih]

theorem format_row_ok (row : Row)
    (h1 : (rowGet row "sk").isSome = true)
    (h2 : (rowGet row "url").isSome = true)
    (h3 : (rowGet row "aliases").isSome = true) :
    format_row row = some (row.filter (fun p => decide (¬ p.1 ∈ droppedCols))) := by
  unfold format_row
  rw [if_pos]
  simp [droppedCols, List.all_cons, h1, h2, h3]

theorem format_row_fails (row : Row)
    (h : rowGet row "sk" = none ∨ rowGet row "url" = none ∨ rowGet row "aliases" = none) :
    format_row row = none := by
  unfold format_row
  rw [if_neg]
  intro hall
  simp only [droppedCols, List.all_cons, List.all_nil, Bool.and_eq_true,
    Bool.and_true] at hall
  rcases h with h | h | h <;> rw [h] at hall <;> simp at hall

theorem rowGet_format_kept (row row2 : Row) (f : String)
    (hf : format_row row = some row2) (hkeep : ¬ f ∈ droppedCols) :
    rowGet row2 f = rowGet row f := by
  unfold format_row at hf
  by_cases hall : droppedCols.all (fun c => (rowGet row c).isSome) = true
  · rw [if_pos hall] at hf
    injection hf with hf
    subst hf
    unfold rowGet
    rw [find?_filter_keys (q := fun k => decide (¬ k ∈ droppedCols))]
    simpa using hkeep
  · rw [if_neg hall] at hf
    exact absurd hf (by simp)

theorem rowGet_format_dropped (row row2 : Row) (f : String)
    (hf : format_row row = some row2) (hdrop : f ∈ droppedCols) :
    rowGet row2 f = none := by
  unfold format_row at hf
  by_cases hall : droppedCols.all (fun c => (rowGet row c).isSome) = true
  · rw [if_pos hall] at hf
    injection hf with hf
    subst hf
    unfold rowGet
    rw [find?_filter_keys_none (q := fun k => decide (¬ k ∈ droppedCols))]
    · rfl
    · simpa using hdrop
  · rw [if_neg hall] at hf
    exact absurd hf (by simp)

theorem readScalars_format (row row2 : Row) (hf : format_row row = some row2) :
    readScalars row2 = readScalars row := by
  unfold readScalars
  rw [rowGet_format_kept row row2 "name" hf (by decide),
      rowGet_format_kept row row2 "current_stock" hf (by decide),
      rowGet_format_kept row row2 "style" hf (by decide),
      rowGet_format_kept row row2 "gender_affinity" hf (by decide),
      rowGet_format_kept row row2 "image" hf (by decide),
      rowGet_format_kept row row2 "category" hf (by decide),
      rowGet_format_kept row row2 "description" hf (by decide),
      rowGet_format_kept row row2 "price" hf (by decide),
      rowGet_format_kept row row2 "featured" hf (by decide)]

theorem mem_dropDuplicates {α : Type} [DecidableEq α] (a : α) (l : List α) :
    a ∈ dropDuplicates l ↔ a ∈ l := by
  induction l using dropDuplicates.induct with
  | case1 => simp [dropDuplicates]
  | case2 x xs ih =>
    unfold dropDuplicates
    simp only [List.mem_cons, ih, List.mem_filter]
    by_cases hax : a = x
    · simp [hax]
    · simp [hax]

theorem nodup_dropDuplicates {α : Type} [DecidableEq α] (l : List α) :
    (dropDuplicates l).Nodup := by
  induction l using dropDuplicates.induct with
  | case1 => unfold dropDuplicates; exact List.nodup_nil
  | case2 x xs ih =>
    unfold dropDuplicates
    refine List.nodup_cons.mpr ⟨?_, ih⟩
    intro hmem
    rw [mem_dropDuplicates] at hmem
    have hx := List.mem_filter.mp hmem
    simp at hx

theorem toFinset_dropDuplicates {α : Type} [DecidableEq α] (l : List α) :
    (dropDuplicates l).toFinset = l.toFinset := by
  ext a
  simp [List.mem_toFinset, mem_dropDuplicates]

theorem length_dropDuplicates {α : Type} [DecidableEq α] (l : List α) :
    (dropDuplicates l).length = l.toFinset.card := by
  rw [← toFinset_dropDuplicates, List.toFinset_card_of_nodup (nodup_dropDuplicates l)]

theorem processRecord_eq_insert (g : Graph) (r : Record) (he : r.eventName = "INSERT") :
    processRecord g r
      = (match format_row r.dynamodb with
         | none => Except.error g
         | some row =>
           match add_vertex g row with
           | none => Except.error g
           | some g1 => Except.ok (g1, [Mutation.ins row])) := by
  unfold processRecord
  rw [he, if_pos rfl]

theorem processRecord_eq_modify (g : Graph) (r : Record) (he : r.eventName = "MODIFY") :
    processRecord g r
      = (match format_row r.dynamodb with
         | none => Except.error g
         | some row =>
           match update_vertex g row with
           | none => Except.error g
           | some g1 => Except.ok (g1, [Mutation.mod row])) := by
  unfold processRecord
  rw [he, if_neg (by decide), if_pos rfl]

theorem processRecord_eq_remove (g : Graph) (r : Record) (he : r.eventName = "REMOVE") :
    processRecord g r
      = (match recordId r.dynamodb with
         | none => Except.error g
         | some vid => Except.ok (drop_vertex g vid, [])) := by
  unfold processRecord
  rw [he, if_neg (by decide), if_neg (by decide), if_pos rfl]

theorem processRecord_eq_skip (g : Graph) (r : Record)
    (h1 : r.eventName ≠ "INSERT") (h2 : r.eventName ≠ "MODIFY")
    (h3 : r.eventName ≠ "REMOVE") :
    processRecord g r = Except.ok (g, []) := by
  unfold processRecord
  rw [if_neg h1, if_neg h2, if_neg h3]

theorem processRecords_cons (g : Graph) (r : Record) (rs : List Record) :
    processRecords g (r :: rs)
      = match processRecord g r with
        | Except.error g1 => Except.error g1
        | Except.ok (g1, ms) =>
          match processRecords g1 rs with
          | Except.error g2 => Except.error g2
          | Except.ok (g2, ms2) => Except.ok (g2, ms ++ ms2) := rfl

theorem add_vertex_cases (g : Graph) (row : Row) (g2 : Graph)
    (h : add_vertex g row = some g2) :
    ∃ vid ps ls, rowGet row "id" = some (Value.str vid) ∧ readScalars row = some ps ∧
      rowGet row "image_labels" = some (Value.labels ls) ∧ g.hasV vid = false ∧
      g2.findV vid = some ⟨"product", ps, passingLabels ls⟩ ∧
      (∀ j, j ≠ vid → g2.findV j = g.findV j) ∧ g2.edges = g.edges := by
  have h0 := h
  unfold add_vertex at h
  split at h
  · rename_i vid ps ls heq1 heq2 heq3
    by_cases hfresh : g.hasV vid = true
    · rw [if_pos hfresh] at h
      exact absurd h (by simp)
    · have hfresh2 : g.hasV vid = false := by
        cases hb : g.hasV vid with
        | false => rfl
        | true => exact absurd hb hfresh
      obtain ⟨g2x, hrunx, hfindx, hframex, hedgesx⟩ :=
        add_vertex_spec g row vid ps ls heq1 heq2 heq3 hfresh2
      rw [h0] at hrunx
      injection hrunx with hg
      subst hg
      exact ⟨vid, ps, ls, heq1, heq2, heq3, hfresh2, hfindx, hframex, hedgesx⟩
  · exact absurd h (by simp)

theorem update_vertex_cases (g : Graph) (row : Row) (g2 : Graph)
    (h : update_vertex g row = some g2) :
    ∃ vid ps ls v0, rowGet row "id" = some (Value.str vid) ∧ readScalars row = some ps ∧
      rowGet row "image_labels" = some (Value.labels ls) ∧ g.findV vid = some v0 ∧
      g2.findV vid = some ⟨v0.label, ps.foldl (fun a q => setProp a q.1 q.2) v0.props,
                           v0.labelsGt75 ++ passingLabels ls⟩ ∧
      (∀ j, j ≠ vid → g2.findV j = g.findV j) ∧ g2.edges = g.edges := by
  have h0 := h
  unfold update_vertex at h
  split at h
  · rename_i vid ps ls heq1 heq2 heq3
    cases hv : g.findV vid with
    | none => rw [hv] at h; exact absurd h (by simp)
    | some v0 =>
      obtain ⟨g2x, hrunx, hfindx, hframex, hedgesx⟩ :=
        update_vertex_spec g row vid ps ls v0 heq1 heq2 heq3 hv
      rw [h0] at hrunx
      injection hrunx with hg
      subst hg
      exact ⟨vid, ps, ls, v0, heq1, heq2, heq3, hv, hfindx, hframex, hedgesx⟩
  · exact absurd h (by simp)

theorem add_vertex_preserve (g : Graph) (row : Row) (g2 : Graph) (vid : String) (v : Vertex)
    (h : add_vertex g row = some g2) (hv : g.findV vid = some v) :
    g2.findV vid = some v := by
  obtain ⟨vid0, ps0, ls0, _, _, _, hfresh, _, hframe, _⟩ := add_vertex_cases g row g2 h
  have hne : vid ≠ vid0 := by
    intro hcontra
    subst hcontra
    have hhas : g.hasV vid = true := (hasV_iff g vid).mpr ⟨v, hv⟩
    rw [hfresh] at hhas
    exact Bool.noConfusion hhas
  rw [hframe vid hne]
  exact hv

theorem bulk_preserve (rows : List Row) : ∀ (g g2 : Graph) (vid : String) (v : Vertex),
    bulkLoadProducts g rows = some g2 → g.findV vid = some v → g2.findV vid = some v := by
  induction rows with
  | nil =>
    intro g g2 vid v h hv
    cases h
    exact hv
  | cons r rs ih =>
    intro g g2 vid v h hv
    unfold bulkLoadProducts at h
    cases hstep : add_vertex g r with
    | none => rw [hstep] at h; exact absurd h (by simp)
    | some g1 =>
      rw [hstep] at h
      exact ih g1 g2 vid v h (add_vertex_preserve g r g1 vid v hstep hv)

/-!
Claim theorems.
-/

/-- C1: for every product record processed by the Incremental Sync Job's insert
or modify path, and by the Bulk Load Job's product-vertex phase, each entry of
the record's image_labels list with confidence strictly greater than 75 adds
the lower-cased label name as a value of the vertex's labels_confidence_gt_75
property, and each entry with confidence at or below 75 adds no such value:
the values present after the operation are exactly the previous ones followed
by passingLabels of the list (and just passingLabels for a fresh vertex). -/
theorem claim_C1 :
    (∀ (g : Graph) (row : Row) (vid : String) (ls : List Label) (g2 : Graph),
        rowGet row "id" = some (Value.str vid) →
        rowGet row "image_labels" = some (Value.labels ls) →
        add_vertex g row = some g2 →
        ∃ v, g2.findV vid = some v ∧ v.labelsGt75 = passingLabels ls) ∧
    (∀ (g : Graph) (row : Row) (vid : String) (ls : List Label) (v0 : Vertex) (g2 : Graph),
        rowGet row "id" = some (Value.str vid) →
        rowGet row "image_labels" = some (Value.labels ls) →
        g.findV vid = some v0 →
        update_vertex g row = some g2 →
        ∃ v, g2.findV vid = some v ∧ v.labelsGt75 = v0.labelsGt75 ++ passingLabels ls) ∧
    (∀ (rows : List Row) (g g2 : Graph) (row : Row) (vid : String) (ls : List Label),
        bulkLoadProducts g rows = some g2 →
        row ∈ rows →
        rowGet row "id" = some (Value.str vid) →
        rowGet row "image_labels" = some (Value.labels ls) →
        ∃ v, g2.findV vid = some v ∧ v.labelsGt75 = passingLabels ls) := by
  have hadd : ∀ (g : Graph) (row : Row) (vid : String) (ls : List Label) (g2 : Graph),
      rowGet row "id" = some (Value.str vid) →
      rowGet row "image_labels" = some (Value.labels ls) →
      add_vertex g row = some g2 →
      ∃ v, g2.findV vid = some v ∧ v.labelsGt75 = passingLabels ls := by
    intro g row vid ls g2 hid hil h
    obtain ⟨vid0, ps0, ls0, heq1, heq2, heq3, hfresh, hfind, hframe, hedges⟩ :=
      add_vertex_cases g row g2 h
    rw [hid] at heq1
    injection heq1 with heq1
    injection heq1 with heq1
    rw [hil] at heq3
    injection heq3 with heq3
    injection heq3 with heq3
    subst heq1
    subst heq3
    exact ⟨_, hfind, rfl⟩
  refine ⟨hadd, ?_, ?_⟩
  · intro g row vid ls v0 g2 hid hil hv h
    obtain ⟨vid0, ps0, ls0, v0x, heq1, heq2, heq3, hvx, hfind, hframe, hedges⟩ :=
      update_vertex_cases g row g2 h
    rw [hid] at heq1
    injection heq1 with heq1
    injection heq1 with heq1
    rw [hil] at heq3
    injection heq3 with heq3
    injection heq3 with heq3
    subst heq1
    subst heq3
    rw [hv] at hvx
    injection hvx with hvx
    subst hvx
    exact ⟨_, hfind, rfl⟩
  · intro rows
    induction rows with
    | nil =>
      intro g g2 row vid ls hbulk hmem
      cases hmem
    | cons r rs ih =>
      intro g g2 row vid ls hbulk hmem hid hil
      unfold bulkLoadProducts at hbulk
      cases hstep : add_vertex g r with
      | none => rw [hstep] at hbulk; exact absurd hbulk (by simp)
      | some g1 =>
        rw [hstep] at hbulk
        rcases List.mem_cons.mp hmem with hr | hr
        · subst hr
          obtain ⟨v, hfind, hlab⟩ := hadd g row vid ls g1 hid hil hstep
          exact ⟨v, bulk_preserve rs g1 g2 vid v hbulk hfind, hlab⟩
        · exact ih g1 g2 row vid ls hbulk hr hid hil

/-- Shared concrete sample data used by the witnesses: a full product row with
one label over the threshold and one under it. -/
def sampleLabels : List Label := [⟨"Shoe", 80⟩, ⟨"Red", 50⟩]

def sampleRow : Row :=
  [("id", Value.str "p1"), ("sk", Value.str "s"), ("url", Value.str "u"),
   ("aliases", Value.str "a"), ("name", Value.str "Sneaker"),
   ("current_stock", Value.num 5), ("style", Value.str "Running"),
   ("gender_affinity", Value.str "M"), ("image", Value.str "img"),
   ("category", Value.str "Shoes"), ("description", Value.str "d"),
   ("price", Value.num 10), ("featured", Value.str "true"),
   ("image_labels", Value.labels sampleLabels)]

def emptyG : Graph := ⟨[], []⟩

theorem claim_C1_witness :
    ∃ v, (Graph.findV (⟨[("p1", ⟨"product",
        [("product_name", Value.str "Sneaker"), ("current_stock", Value.num 5),
         ("style", Value.str "Running"), ("gender_affinity", Value.str "M"),
         ("image", Value.str "img"), ("category", Value.str "Shoes"),
         ("description", Value.str "d"), ("price", Value.num 10),
         ("featured", Value.str "true")], ["shoe"]⟩)], []⟩ : Graph) "p1") = some v ∧
      v.labelsGt75 = passingLabels sampleLabels :=
  claim_C1.1 emptyG sampleRow "p1" sampleLabels _ (by decide) (by decide) (by decide)

def vertexW : Vertex := ⟨"product", [("product_name", Value.str "A")], ["shoe"]⟩

def vertexW2 : Vertex := ⟨"product", [("product_name", Value.str "B")], []⟩

def graphW : Graph := ⟨[("p1", vertexW), ("p2", vertexW2)], []⟩

def removeRowW : Row := [("id", Value.str "p1")]

/-- C2: the claim says a remove event deletes exactly the vertex with the
given identifier. The source's drop_vertex builds g.V(id).drop() without a
terminal step, so the drop traversal is never submitted: evaluated at the
failing input (a graph holding vertex p1 and a REMOVE event for p1), the
event is processed without error, yet the result graph is the input graph
unchanged — the vertex p1 is still present with all its properties. -/
theorem claim_C2_remove_is_noop :
    processRecord graphW ⟨"REMOVE", removeRowW⟩ = Except.ok (graphW, []) ∧
    Graph.findV graphW "p1" = some vertexW ∧
    drop_vertex graphW "p1" = graphW :=
  ⟨rfl, rfl, rfl⟩

/-- C3: the claim says the Bulk Load Job's extract phase and the Export Job's
scan drain every page of the paginated scan; the code issues a single scan
call and consumes only its Items, so on a two-page table both jobs process
exactly the first page, which differs from the full table contents. -/
theorem claim_C3_first_page_only :
    bulkExtract [[removeRowW], [sampleRow]] = [removeRowW] ∧
    exportScanItems [[removeRowW], [sampleRow]] = [removeRowW] ∧
    bulkExtract [[removeRowW], [sampleRow]]
      ≠ tableContents [[removeRowW], [sampleRow]] := by
  refine ⟨rfl, rfl, fun h => ?_⟩
  have hl := congrArg List.length h
  simp [bulkExtract, tableContents] at hl

/-- C7: processing a modify event never removes previously stored values of
the multi-valued labels_confidence_gt_75 property of any vertex: every value
present before the modify is still present afterwards. -/
theorem claim_C7 (g : Graph) (r : Record) (g2 : Graph) (ms : List Mutation)
    (he : r.eventName = "MODIFY")
    (hp : processRecord g r = Except.ok (g2, ms)) :
    ∀ vid v, g.findV vid = some v →
      ∃ v2, g2.findV vid = some v2 ∧ ∀ x ∈ v.labelsGt75, x ∈ v2.labelsGt75 := by
  rw [processRecord_eq_modify g r he] at hp
  split at hp
  · exact absurd hp (by simp)
  · rename_i row hf
    split at hp
    · exact absurd hp (by simp)
    · rename_i g1 hu
      cases hp
      intro vid v hv
      obtain ⟨vid0, ps0, ls0, v0, heq1, heq2, heq3, hv0, hfind, hframe, hedges⟩ :=
        update_vertex_cases g row _ hu
      by_cases hvv : vid = vid0
      · subst hvv
        rw [hv] at hv0
        injection hv0 with hv0
        subst hv0
        refine ⟨_, hfind, fun x hx => ?_⟩
        simp only [List.mem_append]
        exact Or.inl hx
      · refine ⟨v, ?_, fun x hx => hx⟩
        rw [hframe vid hvv]
        exact hv

def formattedSampleRow : Row :=
  [("id", Value.str "p1"), ("name", Value.str "Sneaker"),
   ("current_stock", Value.num 5), ("style", Value.str "Running"),
   ("gender_affinity", Value.str "M"), ("image", Value.str "img"),
   ("category", Value.str "Shoes"), ("description", Value.str "d"),
   ("price", Value.num 10), ("featured", Value.str "true"),
   ("image_labels", Value.labels sampleLabels)]

def modifiedGraphW : Graph :=
  ⟨[("p1", ⟨"product",
      [("product_name", Value.str "Sneaker"), ("current_stock", Value.num 5),
       ("style", Value.str "Running"), ("gender_affinity", Value.str "M"),
       ("image", Value.str "img"), ("category", Value.str "Shoes"),
       ("description", Value.str "d"), ("price", Value.num 10),
       ("featured", Value.str "true")], ["shoe", "shoe"]⟩),
    ("p2", vertexW2)], []⟩

theorem claim_C7_witness :
    ∃ v2, Graph.findV modifiedGraphW "p1" = some v2 ∧
      ∀ x ∈ vertexW.labelsGt75, x ∈ v2.labelsGt75 :=
  claim_C7 graphW ⟨"MODIFY", sampleRow⟩ modifiedGraphW
    [Mutation.mod formattedSampleRow] rfl (by rfl) "p1" vertexW (by rfl)

/-- C9: for every change-event record whose event kind is none of INSERT,
MODIFY or REMOVE, the Incremental Sync Job performs no graph mutation for that
record (the dispatch succeeds with the graph unchanged and an empty mutation
list) and processing the remaining events of the batch continues unchanged. -/
theorem claim_C9 (g : Graph) (r : Record)
    (h1 : r.eventName ≠ "INSERT") (h2 : r.eventName ≠ "MODIFY")
    (h3 : r.eventName ≠ "REMOVE") :
    processRecord g r = Except.ok (g, []) ∧
    ∀ rest, processRecords g (r :: rest) = processRecords g rest := by
  have hskip := processRecord_eq_skip g r h1 h2 h3
  refine ⟨hskip, fun rest => ?_⟩
  rw [processRecords_cons, hskip]
  cases h : processRecords g rest with
  | error g2 => simp [h]
  | ok p =>
    obtain ⟨g2, ms2⟩ := p
    simp [h]

theorem claim_C9_witness :
    processRecord graphW ⟨"UNKNOWN", removeRowW⟩ = Except.ok (graphW, []) ∧
    ∀ rest, processRecords graphW (⟨"UNKNOWN", removeRowW⟩ :: rest)
      = processRecords graphW rest :=
  claim_C9 graphW ⟨"UNKNOWN", removeRowW⟩ (by decide) (by decide) (by decide)

theorem readScalars_cases (row : Row) (ps : List (String × Value))
    (h : readScalars row = some ps) :
    ∃ nm cs st ga im ca de pr fe,
      rowGet row "name" = some nm ∧ rowGet row "current_stock" = some cs ∧
      rowGet row "style" = some st ∧ rowGet row "gender_affinity" = some ga ∧
      rowGet row "image" = some im ∧ rowGet row "category" = some ca ∧
      rowGet row "description" = some de ∧ rowGet row "price" = some pr ∧
      rowGet row "featured" = some fe ∧
      ps = [("product_name", nm), ("current_stock", cs), ("style", st),
            ("gender_affinity", ga), ("image", im), ("category", ca),
            ("description", de), ("price", pr), ("featured", fe)] := by
  unfold readScalars at h
  split at h
  · rename_i nm cs st ga im ca de pr fe heq1 heq2 heq3 heq4 heq5 heq6 heq7 heq8 heq9
    injection h with h
    exact ⟨nm, cs, st, ga, im, ca, de, pr, fe, heq1, heq2, heq3, heq4, heq5,
           heq6, heq7, heq8, heq9, h.symm⟩
  · exact absurd h (by simp)

theorem getProp_foldl_dropped (ps : List (String × Value)) (a : List (String × Value))
    (c : String) (hnot : ∀ q ∈ ps, q.1 ≠ c) (ha : getProp a c = none) :
    getProp (ps.foldl (fun acc q => setProp acc q.1 q.2) a) c = none := by
  induction ps generalizing a with
  | nil => exact ha
  | cons q rest ih =>
    rw [List.foldl_cons]
    refine ih _ (fun q2 hq2 => hnot q2 (List.mem_cons_of_mem q hq2)) ?_
    rw [getProp_setProp_ne _ _ _ _ ?hne]
    · exact ha
    · intro hcq
      exact hnot q (List.mem_cons_self q rest) hcq.symm

/-- C10: format_row unconditionally removes the fields sk, url and aliases; an
insert or modify payload lacking any of the three makes the event fail with an
error before any graph mutation for it is issued (the error carries the graph
unchanged); and the removed fields never appear as vertex properties: the
property maps of all vertices stay free of the three keys across any
successfully processed event. -/
theorem claim_C10 :
    (∀ row row2, format_row row = some row2 →
       rowGet row2 "sk" = none ∧ rowGet row2 "url" = none ∧
       rowGet row2 "aliases" = none) ∧
    (∀ (g : Graph) (r : Record),
       (r.eventName = "INSERT" ∨ r.eventName = "MODIFY") →
       (rowGet r.dynamodb "sk" = none ∨ rowGet r.dynamodb "url" = none ∨
        rowGet r.dynamodb "aliases" = none) →
       processRecord g r = Except.error g) ∧
    (∀ (g : Graph) (r : Record) (g2 : Graph) (ms : List Mutation),
       processRecord g r = Except.ok (g2, ms) →
       (∀ i v, g.findV i = some v → ∀ c ∈ droppedCols, getProp v.props c = none) →
       (∀ i v, g2.findV i = some v → ∀ c ∈ droppedCols, getProp v.props c = none)) := by
  refine ⟨?_, ?_, ?_⟩
  · intro row row2 hf
    exact ⟨rowGet_format_dropped row row2 "sk" hf (by decide),
           rowGet_format_dropped row row2 "url" hf (by decide),
           rowGet_format_dropped row row2 "aliases" hf (by decide)⟩
  · intro g r hkind hmiss
    have hnone : format_row r.dynamodb = none := format_row_fails r.dynamodb hmiss
    rcases hkind with he | he
    · rw [processRecord_eq_insert g r he]
      simp only [hnone]
    · rw [processRecord_eq_modify g r he]
      simp only [hnone]
  · intro g r g2 ms hp hinv
    by_cases he1 : r.eventName = "INSERT"
    · rw [processRecord_eq_insert g r he1] at hp
      split at hp
      · exact absurd hp (by simp)
      · rename_i row hf
        split at hp
        · exact absurd hp (by simp)
        · rename_i g1 hadd
          cases hp
          obtain ⟨vid0, ps0, ls0, heq1, heq2, heq3, hfresh, hfind, hframe, hedges⟩ :=
            add_vertex_cases g row _ hadd
          obtain ⟨nm, cs, st, ga, im, ca, de, pr, fe, _, _, _, _, _, _, _, _, _, hps⟩ :=
            readScalars_cases row ps0 heq2
          intro i v hv c hc
          by_cases hiv : i = vid0
          · subst hiv
            rw [hv] at hfind
            injection hfind with hfind
            subst hfind
            subst hps
            simp only [droppedCols, List.mem_cons, List.not_mem_nil, or_false] at hc
            rcases hc with rfl | rfl | rfl
            · rfl
            · rfl
            · rfl
          · rw [hframe i hiv] at hv
            exact hinv i v hv c hc
    · by_cases he2 : r.eventName = "MODIFY"
      · rw [processRecord_eq_modify g r he2] at hp
        split at hp
        · exact absurd hp (by simp)
        · rename_i row hf
          split at hp
          · exact absurd hp (by simp)
          · rename_i g1 hupd
            cases hp
            obtain ⟨vid0, ps0, ls0, v0, heq1, heq2, heq3, hv0, hfind, hframe, hedges⟩ :=
              update_vertex_cases g row _ hupd
            obtain ⟨nm, cs, st, ga, im, ca, de, pr, fe, _, _, _, _, _, _, _, _, _, hps⟩ :=
              readScalars_cases row ps0 heq2
            intro i v hv c hc
            by_cases hiv : i = vid0
            · subst hiv
              rw [hv] at hfind
              injection hfind with hfind
              subst hfind
              subst hps
              refine getProp_foldl_dropped _ _ c ?_ (hinv _ v0 hv0 c hc)
              intro q hq
              simp only [List.mem_cons, List.not_mem_nil, or_false] at hq
              simp only [droppedCols, List.mem_cons, List.not_mem_nil, or_false] at hc
              rcases hq with h | h | h | h | h | h | h | h | h <;>
                subst h <;>
                rcases hc with rfl | rfl | rfl <;> simp
            · rw [hframe i hiv] at hv
              exact hinv i v hv c hc
      · by_cases he3 : r.eventName = "REMOVE"
        · rw [processRecord_eq_remove g r he3] at hp
          split at hp
          · exact absurd hp (by simp)
          · rename_i vid0 hid
            cases hp
            exact hinv
        · rw [processRecord_eq_skip g r he1 he2 he3] at hp
          cases hp
          exact hinv

def badRowW : Row := [("id", Value.str "p9"), ("url", Value.str "u"), ("aliases", Value.str "a")]

def insertedVertexW : Vertex :=
  ⟨"product",
   [("product_name", Value.str "Sneaker"), ("current_stock", Value.num 5),
    ("style", Value.str "Running"), ("gender_affinity", Value.str "M"),
    ("image", Value.str "img"), ("category", Value.str "Shoes"),
    ("description", Value.str "d"), ("price", Value.num 10),
    ("featured", Value.str "true")], ["shoe"]⟩

def insertedGraphW : Graph := ⟨[("p1", insertedVertexW)], []⟩

theorem claim_C10_witness :
    (rowGet formattedSampleRow "sk" = none ∧ rowGet formattedSampleRow "url" = none ∧
     rowGet formattedSampleRow "aliases" = none) ∧
    processRecord emptyG ⟨"INSERT", badRowW⟩ = Except.error emptyG ∧
    getProp insertedVertexW.props "sk" = none := by
  refine ⟨claim_C10.1 sampleRow formattedSampleRow (by rfl), ?_, ?_⟩
  · exact claim_C10.2.1 emptyG ⟨"INSERT", badRowW⟩ (Or.inl rfl) (Or.inl (by rfl))
  · exact claim_C10.2.2 emptyG ⟨"INSERT", sampleRow⟩ insertedGraphW
      [Mutation.ins formattedSampleRow] (by rfl)
      (fun i v h => absurd h (by simp [emptyG, Graph.findV]))
      "p1" insertedVertexW (by rfl) "sk" (by decide)

/-- C8: the claim says the Incremental Sync Job applies exactly one graph
mutation per event. The REMOVE path applies zero, because its drop traversal
carries no terminal step and is never submitted: evaluated at the failing
input — a one-event batch holding a REMOVE for the existing vertex p1 — the
batch succeeds with an empty mutation trace (no mutation for its one event)
and the graph completely unchanged. -/
theorem claim_C8_remove_applies_none :
    processRecords graphW [⟨"REMOVE", removeRowW⟩] = Except.ok (graphW, []) ∧
    ([] : List Mutation).length ≠ ([⟨"REMOVE", removeRowW⟩] : List Record).length :=
  ⟨rfl, by decide⟩

/-- Whether the payload's image_labels field holds the nested label list. -/
def hasLabelList (row : Row) : Bool :=
  match rowGet row "image_labels" with
  | some (Value.labels _) => true
  | _ => false

theorem hasLabelList_iff (row : Row) :
    hasLabelList row = true ↔ ∃ ls, rowGet row "image_labels" = some (Value.labels ls) := by
  unfold hasLabelList
  cases h : rowGet row "image_labels" with
  | none => simp
  | some v => cases v <;> simp

/-- A full change-event payload for the identifier vid: the id field holds vid,
the image_labels field holds the nested label list, the three columns removed
by format_row are present, and all nine scalar fields are present. -/
def FullRow (row : Row) (vid : String) : Prop :=
  rowGet row "id" = some (Value.str vid) ∧
  hasLabelList row = true ∧
  (rowGet row "sk").isSome = true ∧
  (rowGet row "url").isSome = true ∧
  (rowGet row "aliases").isSome = true ∧
  (readScalars row).isSome = true

instance (row : Row) (vid : String) : Decidable (FullRow row vid) := by
  unfold FullRow
  infer_instance

/-- C4: for every identifier and every pair of full payloads p1, p2, an insert
event with p1 followed immediately by a modify event with p2 for the same
identifier yields a vertex whose nine scalar properties exactly equal the
corresponding fields of p2, independent of the values in p1 — the modify
overwrites every tracked scalar field unconditionally. -/
theorem claim_C4 (g : Graph) (p1 p2 : Row) (vid : String)
    (h1 : FullRow p1 vid) (h2 : FullRow p2 vid) (hfresh : g.hasV vid = false) :
    ∃ g2 ms v,
      processRecords g [⟨"INSERT", p1⟩, ⟨"MODIFY", p2⟩] = Except.ok (g2, ms) ∧
      g2.findV vid = some v ∧
      getProp v.props "product_name" = rowGet p2 "name" ∧
      getProp v.props "current_stock" = rowGet p2 "current_stock" ∧
      getProp v.props "style" = rowGet p2 "style" ∧
      getProp v.props "gender_affinity" = rowGet p2 "gender_affinity" ∧
      getProp v.props "image" = rowGet p2 "image" ∧
      getProp v.props "category" = rowGet p2 "category" ∧
      getProp v.props "description" = rowGet p2 "description" ∧
      getProp v.props "price" = rowGet p2 "price" ∧
      getProp v.props "featured" = rowGet p2 "featured" := by
  obtain ⟨hid1, hll1, hsk1, hurl1, hal1, hsc1⟩ := h1
  obtain ⟨hid2, hll2, hsk2, hurl2, hal2, hsc2⟩ := h2
  obtain ⟨ls1, hil1⟩ := (hasLabelList_iff p1).mp hll1
  obtain ⟨ls2, hil2⟩ := (hasLabelList_iff p2).mp hll2
  obtain ⟨ps1, hps1⟩ := Option.isSome_iff_exists.mp hsc1
  obtain ⟨ps2, hps2⟩ := Option.isSome_iff_exists.mp hsc2
  have hf1 : format_row p1 = some (p1.filter (fun p => decide (¬ p.1 ∈ droppedCols))) :=
    format_row_ok p1 hsk1 hurl1 hal1
  have hf2 : format_row p2 = some (p2.filter (fun p => decide (¬ p.1 ∈ droppedCols))) :=
    format_row_ok p2 hsk2 hurl2 hal2
  set fp1 := p1.filter (fun p => decide (¬ p.1 ∈ droppedCols)) with hfp1
  set fp2 := p2.filter (fun p => decide (¬ p.1 ∈ droppedCols)) with hfp2
  have hid1f : rowGet fp1 "id" = some (Value.str vid) := by
    rw [rowGet_format_kept p1 fp1 "id" hf1 (by decide)]
    exact hid1
  have hil1f : rowGet fp1 "image_labels" = some (Value.labels ls1) := by
    rw [rowGet_format_kept p1 fp1 "image_labels" hf1 (by decide)]
    exact hil1
  have hsc1f : readScalars fp1 = some ps1 := by
    rw [readScalars_format p1 fp1 hf1]
    exact hps1
  have hid2f : rowGet fp2 "id" = some (Value.str vid) := by
    rw [rowGet_format_kept p2 fp2 "id" hf2 (by decide)]
    exact hid2
  have hil2f : rowGet fp2 "image_labels" = some (Value.labels ls2) := by
    rw [rowGet_format_kept p2 fp2 "image_labels" hf2 (by decide)]
    exact hil2
  have hsc2f : readScalars fp2 = some ps2 := by
    rw [readScalars_format p2 fp2 hf2]
    exact hps2
  obtain ⟨g1, hrun1, hfind1, hframe1, hedges1⟩ :=
    add_vertex_spec g fp1 vid ps1 ls1 hid1f hsc1f hil1f hfresh
  obtain ⟨g2, hrun2, hfind2, hframe2, hedges2⟩ :=
    update_vertex_spec g1 fp2 vid ps2 ls2 ⟨"product", ps1, passingLabels ls1⟩
      hid2f hsc2f hil2f hfind1
  have hpr1 : processRecord g ⟨"INSERT", p1⟩ = Except.ok (g1, [Mutation.ins fp1]) := by
    rw [processRecord_eq_insert _ _ rfl]
    simp only [hf1, hrun1]
  have hpr2 : processRecord g1 ⟨"MODIFY", p2⟩ = Except.ok (g2, [Mutation.mod fp2]) := by
    rw [processRecord_eq_modify _ _ rfl]
    simp only [hf2, hrun2]
  obtain ⟨nm2, cs2, st2, ga2, im2, ca2, de2, pr2, fe2,
          hnm, hcs, hst, hga, him, hca, hde, hpr, hfe, hpseq⟩ :=
    readScalars_cases p2 ps2 hps2
  subst hpseq
  refine ⟨g2, [Mutation.ins fp1, Mutation.mod fp2],
    ⟨"product",
     ([("product_name", nm2), ("current_stock", cs2), ("style", st2),
       ("gender_affinity", ga2), ("image", im2), ("category", ca2),
       ("description", de2), ("price", pr2), ("featured", fe2)]).foldl
       (fun a q => setProp a q.1 q.2) ps1,
     passingLabels ls1 ++ passingLabels ls2⟩, ?_, ?_, ?_, ?_, ?_, ?_, ?_, ?_, ?_, ?_, ?_⟩
  · rw [processRecords_cons]
    simp only [hpr1]
    rw [processRecords_cons]
    simp only [hpr2]
    rfl
  · exact hfind2
  all_goals simp only [List.foldl_cons, List.foldl_nil]
  · repeat rw [getProp_setProp_ne _ _ _ _ (by decide)]
    rw [getProp_setProp_self, hnm]
  · repeat rw [getProp_setProp_ne _ _ _ _ (by decide)]
    rw [getProp_setProp_self, hcs]
  · repeat rw [getProp_setProp_ne _ _ _ _ (by decide)]
    rw [getProp_setProp_self, hst]
  · repeat rw [getProp_setProp_ne _ _ _ _ (by decide)]
    rw [getProp_setProp_self, hga]
  · repeat rw [getProp_setProp_ne _ _ _ _ (by decide)]
    rw [getProp_setProp_self, him]
  · repeat rw [getProp_setProp_ne _ _ _ _ (by decide)]
    rw [getProp_setProp_self, hca]
  · repeat rw [getProp_setProp_ne _ _ _ _ (by decide)]
    rw [getProp_setProp_self, hde]
  · repeat rw [getProp_setProp_ne _ _ _ _ (by decide)]
    rw [getProp_setProp_self, hpr]
  · rw [getProp_setProp_self, hfe]

def sampleRow2 : Row :=
  [("id", Value.str "p1"), ("sk", Value.str "s2"), ("url", Value.str "u2"),
   ("aliases", Value.str "a2"), ("name", Value.str "Old"),
   ("current_stock", Value.num 1), ("style", Value.str "Walking"),
   ("gender_affinity", Value.str "F"), ("image", Value.str "old"),
   ("category", Value.str "Boots"), ("description", Value.str "o"),
   ("price", Value.num 99), ("featured", Value.str "false"),
   ("image_labels", Value.labels [])]

theorem claim_C4_witness :
    ∃ g2 ms v,
      processRecords emptyG [⟨"INSERT", sampleRow2⟩, ⟨"MODIFY", sampleRow⟩]
        = Except.ok (g2, ms) ∧
      g2.findV "p1" = some v ∧
      getProp v.props "product_name" = rowGet sampleRow "name" ∧
      getProp v.props "current_stock" = rowGet sampleRow "current_stock" ∧
      getProp v.props "style" = rowGet sampleRow "style" ∧
      getProp v.props "gender_affinity" = rowGet sampleRow "gender_affinity" ∧
      getProp v.props "image" = rowGet sampleRow "image" ∧
      getProp v.props "category" = rowGet sampleRow "category" ∧
      getProp v.props "description" = rowGet sampleRow "description" ∧
      getProp v.props "price" = rowGet sampleRow "price" ∧
      getProp v.props "featured" = rowGet sampleRow "featured" :=
  claim_C4 emptyG sampleRow2 sampleRow "p1" (by decide) (by decide) (by decide)

theorem assoc_mem_eq {α : Type} (l : List (String × α)) :
    (l.map (fun p => p.1)).Nodup → ∀ (f : String) (a b : α),
      (f, a) ∈ l → (f, b) ∈ l → a = b := by
  induction l with
  | nil =>
    intro _ f a b ha _
    cases ha
  | cons p rest ih =>
    intro hnd f a b ha hb
    rw [List.map_cons, List.nodup_cons] at hnd
    rcases List.mem_cons.mp ha with ha1 | ha1
    · rcases List.mem_cons.mp hb with hb1 | hb1
      · have hab := hb1.trans ha1.symm
        injection hab with h1 h2
        exact h2.symm
      · exfalso
        apply hnd.1
        rw [← ha1]
        exact List.mem_map.mpr ⟨(f, b), hb1, rfl⟩
    · rcases List.mem_cons.mp hb with hb1 | hb1
      · exfalso
        apply hnd.1
        rw [← hb1]
        exact List.mem_map.mpr ⟨(f, a), ha1, rfl⟩
      · exact ih hnd.2 f a b ha1 hb1

/-- C6: the Export Job's normalization maps every string-valued field to
itself; every Decimal field to an integer when it has no fractional part
(denominator 1) and to a floating-point value otherwise; every entry of the
image_labels list to an entry with the confidence coerced to floating-point
and the name unchanged; and it omits from the output every field not covered
by these rules (an unrecognized value, or a label list under another name). -/
theorem claim_C6 (item : List (String × AttrValue))
    (hnd : (item.map (fun p => p.1)).Nodup) :
    (∀ f s, (f, AttrValue.str s) ∈ item → (f, OutValue.str s) ∈ product_dict item) ∧
    (∀ f d, (f, AttrValue.dec d) ∈ item →
       ((d.den = 1 → (f, OutValue.int d.num) ∈ product_dict item) ∧
        (d.den ≠ 1 → (f, OutValue.float d) ∈ product_dict item))) ∧
    (∀ ls, ("image_labels", AttrValue.labelList ls) ∈ item →
       ("image_labels",
         OutValue.labelList (ls.map (fun l => ⟨l.confidence, l.name⟩))) ∈ product_dict item) ∧
    (∀ f v, (f, v) ∈ item →
       (v = AttrValue.other ∨ ∃ ls, v = AttrValue.labelList ls ∧ f ≠ "image_labels") →
       ∀ w, (f, w) ∉ product_dict item) := by
  refine ⟨?_, ?_, ?_, ?_⟩
  · intro f s hmem
    exact List.mem_filterMap.mpr ⟨(f, AttrValue.str s), hmem, rfl⟩
  · intro f d hmem
    constructor
    · intro hden
      refine List.mem_filterMap.mpr ⟨(f, AttrValue.dec d), hmem, ?_⟩
      simp [product_dict, hden]
    · intro hden
      refine List.mem_filterMap.mpr ⟨(f, AttrValue.dec d), hmem, ?_⟩
      simp [product_dict, hden]
  · intro ls hmem
    refine List.mem_filterMap.mpr ⟨("image_labels", AttrValue.labelList ls), hmem, ?_⟩
    simp
  · intro f v hmem hbad w hw
    unfold product_dict at hw
    obtain ⟨a, hamem, hconv⟩ := List.mem_filterMap.mp hw
    obtain ⟨fa, va⟩ := a
    cases va with
    | str s =>
      simp only at hconv
      injection hconv with hc
      injection hc with hc1 hc2
      rw [hc1] at hamem
      have hva : AttrValue.str s = v := assoc_mem_eq item hnd f _ _ hamem hmem
      rcases hbad with hb | ⟨ls2, hb, hfne⟩ <;> rw [← hva] at hb <;> exact AttrValue.noConfusion hb
    | dec d =>
      simp only at hconv
      split at hconv <;>
        (injection hconv with hc
         injection hc with hc1 hc2
         rw [hc1] at hamem
         have hva : AttrValue.dec d = v := assoc_mem_eq item hnd f _ _ hamem hmem
         rcases hbad with hb | ⟨ls2, hb, hfne⟩ <;> rw [← hva] at hb <;>
           exact AttrValue.noConfusion hb)
    | labelList ls =>
      simp only at hconv
      split at hconv
      · rename_i haf
        injection hconv with hc
        injection hc with hc1 hc2
        rw [hc1] at hamem
        have hva : AttrValue.labelList ls = v := assoc_mem_eq item hnd f _ _ hamem hmem
        rcases hbad with hb | ⟨ls2, hb, hfne⟩
        · rw [← hva] at hb
          exact AttrValue.noConfusion hb
        · exact hfne (hc1.symm.trans haf)
      · exact Option.noConfusion hconv
    | other =>
      simp only at hconv
      exact Option.noConfusion hconv

def itemW : List (String × AttrValue) :=
  [("a", AttrValue.dec 10), ("b", AttrValue.dec (mkRat 21 2)), ("c", AttrValue.str "x"),
   ("image_labels", AttrValue.labelList [⟨"Nike", 90⟩]), ("z", AttrValue.other)]

theorem claim_C6_witness :
    ("c", OutValue.str "x") ∈ product_dict itemW ∧
    ("a", OutValue.int (10 : Rat).num) ∈ product_dict itemW ∧
    ("b", OutValue.float (mkRat 21 2)) ∈ product_dict itemW ∧
    ("image_labels", OutValue.labelList [⟨(90 : Rat), "Nike"⟩]) ∈ product_dict itemW ∧
    ¬ ("z", OutValue.str "q") ∈ product_dict itemW :=
  ⟨(claim_C6 itemW (by decide)).1 "c" "x" (by decide),
   ((claim_C6 itemW (by decide)).2.1 "a" 10 (by decide)).1 (by decide),
   ((claim_C6 itemW (by decide)).2.1 "b" (mkRat 21 2) (by decide)).2 (by decide),
   (claim_C6 itemW (by decide)).2.2.1 [⟨"Nike", 90⟩] (by decide),
   (claim_C6 itemW (by decide)).2.2.2 "z" AttrValue.other (by decide) (Or.inl rfl)
     (OutValue.str "q")⟩

theorem list_toFinset_map {α β : Type} [DecidableEq α] [DecidableEq β]
    (f : α → β) (l : List α) : (l.map f).toFinset = l.toFinset.image f := by
  ext b
  simp [List.mem_toFinset, Finset.mem_image, List.mem_map]

theorem idxOf_inj {α : Type} [DecidableEq α] (l : List α) : ∀ (a b : α),
    a ∈ l → b ∈ l → idxOf a l = idxOf b l → a = b := by
  induction l with
  | nil =>
    intro a b ha _ _
    cases ha
  | cons x xs ih =>
    intro a b ha hb he
    by_cases hxa : x = a <;> by_cases hxb : x = b
    · rw [← hxa, ← hxb]
    · by_cases hab : a = b
      · exact hab
      · simp [idxOf, hxa, hxb, hab] at he
    · by_cases hab : a = b
      · exact hab
      · simp [idxOf, hxa, hxb, hab] at he
        exact he.symm
    · simp only [idxOf, if_neg hxa, if_neg hxb, Nat.add_right_cancel_iff] at he
      have ha2 : a ∈ xs := by
        rcases List.mem_cons.mp ha with h | h
        · exact absurd h.symm hxa
        · exact h
      have hb2 : b ∈ xs := by
        rcases List.mem_cons.mp hb with h | h
        · exact absurd h.symm hxb
        · exact h
      exact ih a b ha2 hb2 he

theorem catIdOf_inj (rows : List Row) (c1 c2 : Option Value)
    (h1 : c1 ∈ catColumn rows) (h2 : c2 ∈ catColumn rows)
    (he : catIdOf rows c1 = catIdOf rows c2) : c1 = c2 := by
  unfold catIdOf at he
  exact idxOf_inj (dropDuplicates (catColumn rows)) c1 c2
    ((mem_dropDuplicates c1 (catColumn rows)).mpr h1)
    ((mem_dropDuplicates c2 (catColumn rows)).mpr h2) he

theorem styleIdOf_inj (rows : List Row) (s1 s2 : Option Value)
    (h1 : s1 ∈ styleColumn rows) (h2 : s2 ∈ styleColumn rows)
    (he : styleIdOf rows s1 = styleIdOf rows s2) : s1 = s2 := by
  unfold styleIdOf at he
  have he2 := Nat.add_left_cancel he
  exact idxOf_inj (dropDuplicates (styleColumn rows)) s1 s2
    ((mem_dropDuplicates s1 (styleColumn rows)).mpr h1)
    ((mem_dropDuplicates s2 (styleColumn rows)).mpr h2) he2

theorem mem_cols_of_mem_cs_pairs (rows : List Row) (p : Option Value × Option Value)
    (hp : p ∈ rows.map (fun r => (rowGet r "category", rowGet r "style"))) :
    p.1 ∈ catColumn rows ∧ p.2 ∈ styleColumn rows := by
  obtain ⟨r, hr, hpr⟩ := List.mem_map.mp hp
  subst hpr
  exact ⟨List.mem_map.mpr ⟨r, hr, rfl⟩, List.mem_map.mpr ⟨r, hr, rfl⟩⟩

theorem mem_cols_of_mem_sp_pairs (rows : List Row) (p : Option Value × Option Value)
    (hp : p ∈ rows.map (fun r => (rowGet r "style", rowGet r "id"))) :
    p.1 ∈ styleColumn rows := by
  obtain ⟨r, hr, hpr⟩ := List.mem_map.mp hp
  subst hpr
  exact List.mem_map.mpr ⟨r, hr, rfl⟩

/-- C5: over a product set whose records carry category, style and id fields,
the Bulk Load Job creates exactly one category vertex per distinct category
value and one style vertex per distinct style value, and exactly one has edge
per distinct (category, style) pair actually observed and per distinct
(style, product) pair actually observed — the deduplicated merge, never the
full cross product. -/
theorem claim_C5 (rows : List Row)
    (hcat : ∀ r ∈ rows, (rowGet r "category").isSome = true)
    (hsty : ∀ r ∈ rows, (rowGet r "style").isSome = true)
    (hid : ∀ r ∈ rows, (rowGet r "id").isSome = true) :
    (bulkCategoryVerts rows).length = (catColumn rows).toFinset.card ∧
    (bulkStyleVerts rows).length = (styleColumn rows).toFinset.card ∧
    (bulkCatStyleEdges rows).length
      = (rows.map (fun r => (rowGet r "category", rowGet r "style"))).toFinset.card ∧
    (bulkStyleProductEdges rows).length
      = (rows.map (fun r => (rowGet r "style", rowGet r "id"))).toFinset.card := by
  refine ⟨?_, ?_, ?_, ?_⟩
  · unfold bulkCategoryVerts df_categories
    rw [List.length_map, List.length_map, List.enum_length, length_dropDuplicates]
  · unfold bulkStyleVerts df_styles
    rw [List.length_map, List.length_map, List.enum_length, length_dropDuplicates]
  · unfold bulkCatStyleEdges edgesCatStyle
    rw [List.length_map, length_dropDuplicates]
    have hmm : rows.map (fun r => (catIdOf rows (rowGet r "category"),
                                   styleIdOf rows (rowGet r "style")))
        = (rows.map (fun r => (rowGet r "category", rowGet r "style"))).map
            (fun p => (catIdOf rows p.1, styleIdOf rows p.2)) := by
      rw [List.map_map]
      rfl
    rw [hmm, list_toFinset_map]
    apply Finset.card_image_of_injOn
    intro p hp q hq he
    have hpl := List.mem_toFinset.mp (Finset.mem_coe.mp hp)
    have hql := List.mem_toFinset.mp (Finset.mem_coe.mp hq)
    obtain ⟨hp1, hp2⟩ := mem_cols_of_mem_cs_pairs rows p hpl
    obtain ⟨hq1, hq2⟩ := mem_cols_of_mem_cs_pairs rows q hql
    simp only [Prod.mk.injEq] at he
    obtain ⟨he1, he2⟩ := he
    have h1 := catIdOf_inj rows p.1 q.1 hp1 hq1 he1
    have h2 := styleIdOf_inj rows p.2 q.2 hp2 hq2 he2
    exact Prod.ext h1 h2
  · unfold bulkStyleProductEdges edgesStyleProduct
    rw [List.length_map, length_dropDuplicates]
    have hmm : rows.map (fun r => (styleIdOf rows (rowGet r "style"), rowGet r "id"))
        = (rows.map (fun r => (rowGet r "style", rowGet r "id"))).map
            (fun p => (styleIdOf rows p.1, p.2)) := by
      rw [List.map_map]
      rfl
    rw [hmm, list_toFinset_map]
    apply Finset.card_image_of_injOn
    intro p hp q hq he
    have hpl := List.mem_toFinset.mp (Finset.mem_coe.mp hp)
    have hql := List.mem_toFinset.mp (Finset.mem_coe.mp hq)
    have hp1 := mem_cols_of_mem_sp_pairs rows p hpl
    have hq1 := mem_cols_of_mem_sp_pairs rows q hql
    simp only [Prod.mk.injEq] at he
    obtain ⟨he1, he2⟩ := he
    exact Prod.ext (styleIdOf_inj rows p.1 q.1 hp1 hq1 he1) he2

theorem claim_C5_witness :
    (bulkCategoryVerts [sampleRow, sampleRow2]).length
      = (catColumn [sampleRow, sampleRow2]).toFinset.card ∧
    (bulkStyleVerts [sampleRow, sampleRow2]).length
      = (styleColumn [sampleRow, sampleRow2]).toFinset.card ∧
    (bulkCatStyleEdges [sampleRow, sampleRow2]).length
      = ([sampleRow, sampleRow2].map
          (fun r => (rowGet r "category", rowGet r "style"))).toFinset.card ∧
    (bulkStyleProductEdges [sampleRow, sampleRow2]).length
      = ([sampleRow, sampleRow2].map
          (fun r => (rowGet r "style", rowGet r "id"))).toFinset.card :=
  claim_C5 [sampleRow, sampleRow2] (by decide) (by decide) (by decide)
